import Mathlib

/-!
Verification development for the text-chunking core of the `py-doc`
repository (`src/common/doc_chunk.py`, with the duplicated data model in
`src/common/document_chunk.py`).

The embedding is shallow: document content is a `List Char`, Python string
slicing is modelled by `pySlice` (including Python's negative-index
normalisation), the `for i in range(n): ...` scans of `_find_split_boundary`
are modelled by the first-hit scanner `firstHitFrom`, and the `while` loop of
`DocumentProcessor._create_chunks` is modelled by the fuel-indexed function
`create_chunks_go` (`none` = the loop did not finish within the given fuel,
or a `ValueError` was raised by `DocChunkPosition.__post_init__`;
`some chunks` = the loop finished normally and produced `chunks`).

Exceptions (`raise ValueError`) are modelled as `none` / `Option` failure;
since the model is pure, an operation that fails returns `none` and the input
value is untouched, which is exactly the Python behaviour of raising before
any mutation.  Wall-clock values (`datetime.now()`) are modelled by a `Nat`
tick passed in by the caller.  Fields of the Python dataclasses that no claim
mentions and that are nondeterministic or cryptographic glue
(`content_hash`, `created_at`, `tokens_count`, `chunk_id`, `metadata`,
file-identity strings) are omitted from the records; every field a claim
talks about is present and is computed exactly as in the source.
-/

set_option maxRecDepth 10000

/-- Python slice-index normalisation: for `s[a:b]` Python maps a negative
index `i` to `len(s) + i` (clamped below by 0) and a non-negative index to
`min i (len s)`. -/
def pySliceNorm (len : Nat) (i : Int) : Nat :=
  if i < 0 then ((len : Int) + i).toNat else min i.toNat len

/-- Python slice `s[a:b]` (step 1) on a list of characters. -/
def pySlice (s : List Char) (a b : Int) : List Char :=
  (s.take (pySliceNorm s.length b)).drop (pySliceNorm s.length a)

/-- Model of a Python `for i in range(...)` loop that returns at the first
index satisfying `f`: scanning starts at `i` and tests `fuel` consecutive
indices. -/
def firstHitFrom (f : Nat → Bool) : Nat → Nat → Option Nat
  | _, 0 => none
  | i, fuel + 1 => if f i then some i else firstHitFrom f (i + 1) fuel

/-- Model of `DocChunkPosition` (`doc_chunk.py`).  `page_start`/`page_end`
are never set by the chunker and are not mentioned by any claim, so they are
omitted. -/
structure DocChunkPosition where
  char_start : Nat
  char_end : Nat
  line_start : Nat
  line_end : Nat
  overlap_start : Nat
  overlap_end : Nat
  content_start : Nat
  content_end : Nat
deriving Repr, DecidableEq, Inhabited

/-- Model of constructing a `DocChunkPosition`, i.e. the dataclass
constructor followed by `__post_init__`: it raises (here: `none`) when
`char_start > char_end`, and defaults `content_start`/`content_end` when they
are passed as `0`.  There is no check on `line_start` versus `line_end` in
the source. -/
def DocChunkPosition.mk? (char_start char_end line_start line_end
    overlap_start overlap_end content_start content_end : Nat) :
    Option DocChunkPosition :=
  if char_end < char_start then none
  else some
    { char_start := char_start, char_end := char_end,
      line_start := line_start, line_end := line_end,
      overlap_start := overlap_start, overlap_end := overlap_end,
      content_start := if content_start = 0 then char_start + overlap_start
        else content_start,
      content_end := if content_end = 0 then char_end - overlap_end
        else content_end }

/-- Model of `DocumentChunkPosition` (`document_chunk.py`), which is a
character-for-character duplicate of `DocChunkPosition`. -/
structure DocumentChunkPosition where
  char_start : Nat
  char_end : Nat
  line_start : Nat
  line_end : Nat
  overlap_start : Nat
  overlap_end : Nat
  content_start : Nat
  content_end : Nat
deriving Repr, DecidableEq, Inhabited

/-- Model of constructing a `DocumentChunkPosition`
(`DocumentChunkPosition.__post_init__` in `document_chunk.py`, identical to
the one in `doc_chunk.py`). -/
def DocumentChunkPosition.mk? (char_start char_end line_start line_end
    overlap_start overlap_end content_start content_end : Nat) :
    Option DocumentChunkPosition :=
  if char_end < char_start then none
  else some
    { char_start := char_start, char_end := char_end,
      line_start := line_start, line_end := line_end,
      overlap_start := overlap_start, overlap_end := overlap_end,
      content_start := if content_start = 0 then char_start + overlap_start
        else content_start,
      content_end := if content_end = 0 then char_end - overlap_end
        else content_end }

/-- Model of `DocChunk` (`doc_chunk.py`). -/
structure DocChunk where
  chunk_index : Nat
  content : List Char
  position : DocChunkPosition
  doc_id : String
  target_chunk_size : Nat
  actual_chunk_size : Nat
deriving Repr, DecidableEq, Inhabited

/-- Model of the property `DocChunk.content_without_overlap`:
`self.content[start_offset:end_offset]` with
`start_offset = overlap_start` and `end_offset = len(content) - overlap_end`
(a Python slice, so a negative `end_offset` wraps). -/
def DocChunk.content_without_overlap (c : DocChunk) : List Char :=
  pySlice c.content (c.position.overlap_start : Int)
    ((c.content.length : Int) - (c.position.overlap_end : Int))

/-- Model of the property `DocChunk.overlap_with_previous`:
`""` when `overlap_start == 0`, else `content[:overlap_start]`. -/
def DocChunk.overlap_with_previous (c : DocChunk) : List Char :=
  if c.position.overlap_start = 0 then []
  else c.content.take c.position.overlap_start

/-- Model of the property `DocChunk.overlap_with_next`:
`""` when `overlap_end == 0`, else `content[-overlap_end:]`. -/
def DocChunk.overlap_with_next (c : DocChunk) : List Char :=
  if c.position.overlap_end = 0 then []
  else pySlice c.content (-(c.position.overlap_end : Int)) (c.content.length : Int)

/-- Model of `Document` (`doc_chunk.py`); `BaseDocument` in
`document_chunk.py` has the same `add_chunk`.  `content = none` models
Python `content = None`.  `updated_at` is a wall-clock tick. -/
structure Document where
  doc_id : String
  chunk_size : Nat
  chunk_overlap : Nat
  content : Option (List Char)
  chunks : List DocChunk
  updated_at : Nat
deriving Repr, DecidableEq, Inhabited

/-- Model of `Document.add_chunk` (and of the identical
`BaseDocument.add_chunk`): raises (`none`) when the chunk's `doc_id` differs
from the document's, otherwise appends the chunk and sets `updated_at` to
the current time `now`. -/
def add_chunk (now : Nat) (doc : Document) (chunk : DocChunk) : Option Document :=
  if chunk.doc_id ≠ doc.doc_id then none
  else some { doc with chunks := doc.chunks ++ [chunk], updated_at := now }

/-- Boundary characters of `DocumentProcessor._find_split_boundary`, in
source order. -/
def boundary_chars : List Char := ['。', '；', '\n', '，', ':', '：']

/-- Membership test used by the boundary search. -/
def isBoundaryChar (c : Char) : Bool := boundary_chars.contains c

/-- Model of `DocumentProcessor._find_split_boundary`: scan forward up to
`min 100 (len - position)` characters for a boundary character and return
the index just after the first hit; failing that, scan backward up to
`min 100 position` characters (starting at `position` itself, so index `0`
is never examined) and return the index just after the first hit; failing
both, return `position` unchanged.  Indices passed to `getD` are in range at
every call site reached from the chunker, so the default character `'a'`
(not a boundary character) is never actually read. -/
def find_split_boundary (content : List Char) (position : Nat) : Nat :=
  match firstHitFrom (fun i => isBoundaryChar (content.getD (position + i) 'a'))
      0 (min 100 (content.length - position)) with
  | some i => position + i + 1
  | none =>
    match firstHitFrom (fun i => isBoundaryChar (content.getD (position - i) 'a'))
        0 (min 100 position) with
    | some i => position - i + 1
    | none => position

/-- Model of `DocumentProcessor._get_line_number`:
`content[:position].count('\n') + 1`. -/
def get_line_number (content : List Char) (position : Nat) : Nat :=
  (content.take position).count '\n' + 1

/-- The end position computed for one iteration of the chunking loop:
`end = min(start + chunk_size, len(content))` followed by
`if end < len(content): end = self._find_split_boundary(content, end)`. -/
def chunkEnd (content : List Char) (cs start : Nat) : Nat :=
  if min (start + cs) content.length < content.length then
    find_split_boundary content (min (start + cs) content.length)
  else min (start + cs) content.length

/-- Model of the `while start < len(content)` loop of
`DocumentProcessor._create_chunks`, indexed by fuel.  `none` means either
that the loop did not finish within `fuel` iterations or that
`DocChunkPosition.__post_init__` raised; `some chunks` is a normal return.
The local names follow the source: `overlap_start`/`overlap_end`,
`actual_start`/`actual_end`, and the chunk is built with
`content_start = start`, `content_end = e` exactly as in the source. -/
def create_chunks_go (cs co : Nat) (doc_id : String) (content : List Char) :
    Nat → Nat → Nat → Option (List DocChunk)
  | 0, start, _ =>
    if start < content.length then none else some []
  | fuel + 1, start, chunk_index =>
    if start < content.length then
      let e := chunkEnd content cs start
      let overlap_start := if 0 < chunk_index then min co start else 0
      let actual_start := start - overlap_start
      let overlap_end := if e < content.length then min co (content.length - e) else 0
      let actual_end := if e < content.length then min (e + overlap_end) content.length else e
      let chunk_content := (content.take actual_end).drop actual_start
      (DocChunkPosition.mk? actual_start actual_end
          (get_line_number content actual_start) (get_line_number content actual_end)
          overlap_start overlap_end start e).bind fun position =>
        (create_chunks_go cs co doc_id content fuel e (chunk_index + 1)).map fun rest =>
          { chunk_index := chunk_index, content := chunk_content,
            position := position, doc_id := doc_id, target_chunk_size := cs,
            actual_chunk_size := chunk_content.length } :: rest
    else some []

/-- Model of `DocumentProcessor.process_document`: raise (`none`) when
`doc.content` is falsy (missing or empty), otherwise create the chunks and
append each one to the document with `add_chunk`.  `cs`/`co` are the
processor's `chunk_size`/`chunk_overlap`, `now` is the wall-clock tick used
for `updated_at`, `fuel` bounds the chunking loop. -/
def process_document (cs co now fuel : Nat) (doc : Document) : Option Document :=
  match doc.content with
  | none => none
  | some content =>
    if content.isEmpty then none
    else
      match create_chunks_go cs co doc.doc_id content fuel 0 0 with
      | none => none
      | some chunks => chunks.foldlM (fun d c => add_chunk now d c) doc

/-- Model of `ChunkVerifier.reconstruct_content`: concatenate
`content_without_overlap` over the chunks in order (empty list gives `""`).
-/
def reconstruct_content (chunks : List DocChunk) : List Char :=
  (chunks.map DocChunk.content_without_overlap).flatten

/-- Report returned by `ChunkVerifier.verify_chunk_integrity`. -/
structure VerifyReport where
  coverage_complete : Bool
  overlaps_correct : Bool
  content_matches : Bool
  issues : List String
deriving Repr, DecidableEq, Inhabited

/-- Condition of the adjacency check of `verify_chunk_integrity`:
`chunks[i].position.content_end != chunks[i+1].position.content_start`. -/
def gapB (chunks : List DocChunk) (i : Nat) : Bool :=
  (chunks.getD i default).position.content_end
    != (chunks.getD (i + 1) default).position.content_start

/-- Condition of the overlap check of `verify_chunk_integrity`:
`overlap_end > 0` and `chunks[i].overlap_with_next !=
chunks[i+1].overlap_with_previous`. -/
def ovlB (chunks : List DocChunk) (i : Nat) : Bool :=
  decide (0 < (chunks.getD i default).position.overlap_end)
    && ((chunks.getD i default).overlap_with_next
      != (chunks.getD (i + 1) default).overlap_with_previous)

/-- One iteration of the `for i in range(len(chunks) - 1)` loop of
`verify_chunk_integrity`: the gap check may clear `coverage_complete` and
append an issue, then the overlap check may clear `overlaps_correct` and
append an issue. -/
def verify_pair_step (chunks : List DocChunk) (st : VerifyReport) (i : Nat) :
    VerifyReport :=
  let st1 :=
    if gapB chunks i then
      { st with
        coverage_complete := false
        issues := st.issues ++
          ["分块" ++ toString i ++ "和" ++ toString (i + 1) ++ "之间有内容缺失或重复"] }
    else st
  if ovlB chunks i then
    { st1 with
      overlaps_correct := false
      issues := st1.issues ++
        ["分块" ++ toString i ++ "和" ++ toString (i + 1) ++ "的重叠内容不匹配"] }
  else st1

/-- Stage 1 of `verify_chunk_integrity` (the `if chunks:` block): start from
the all-true report and run the two coverage-bounds checks, skipped entirely
when the chunk list is empty. -/
def verify_bounds_report (chunks : List DocChunk) (original : List Char) :
    VerifyReport :=
  let results0 : VerifyReport :=
    { coverage_complete := true, overlaps_correct := true,
      content_matches := true, issues := [] }
  if chunks.isEmpty then results0
  else
    let a :=
      if (chunks.headD default).position.content_start ≠ 0 then
        { results0 with
          coverage_complete := false
          issues := results0.issues ++ ["第一个分块没有从文档开头开始"] }
      else results0
    if (chunks.getLastD default).position.content_end ≠ original.length then
      { a with
        coverage_complete := false
        issues := a.issues ++ ["最后一个分块没有到达文档末尾"] }
    else a

/-- Model of `ChunkVerifier.verify_chunk_integrity`: coverage-bounds check
(only when the chunk list is non-empty), adjacency/overlap loop, then the
reconstruction check.  The function is total: every failed check records a
finding in `issues` and the scan continues. -/
def verify_chunk_integrity (chunks : List DocChunk) (original : List Char) :
    VerifyReport :=
  let results2 := (List.range (chunks.length - 1)).foldl (verify_pair_step chunks)
    (verify_bounds_report chunks original)
  if reconstruct_content chunks ≠ original then
    { results2 with
      content_matches := false
      issues := results2.issues ++ ["重构内容与原始内容不匹配"] }
  else results2

/-- Reachability invariant of the chunking loop at cursor `start`: either the
loop is at the beginning, or the previous iteration cut just after a boundary
character (so `content[start-1]` is one), or the previous iteration was a
hard cut, whose backward scan certified that no boundary character occurs at
an index `j ≥ 1` with `start - 99 ≤ j ≤ start`.  Every state the loop can
reach satisfies this, and under it the next computed end never regresses
below `start`. -/
def ChunkInv (content : List Char) (start : Nat) : Prop :=
  start = 0
  ∨ (1 ≤ start ∧ isBoundaryChar (content.getD (start - 1) 'a') = true)
  ∨ (∀ j, 1 ≤ j → j ≤ start → start ≤ j + 99 → isBoundaryChar (content.getD j 'a') = false)

/-! ### Concrete inputs used by the scenario claims -/

/-- Input on which the chunking loop never terminates: a `'，'` at index 5 of
an otherwise boundary-free 20-character text, chunked with
`chunk_size = 5`.  The first iteration cuts at 6 (just after the `'，'`); at
`start = 6` the proposed cut 11 finds no boundary forward, and the backward
scan walks back to the same `'，'`, returning `end = 6 = start` forever. -/
def contentStall : List Char := List.replicate 5 'a' ++ '，' :: List.replicate 14 'a'

/-- A 20-character boundary-free text with non-repeating letters, used to
exhibit the asymmetry of the stored overlaps. -/
def contentRep : List Char :=
  ['a', 'b', 'c', 'd', 'e', 'f', 'g', 'h', 'i', 'j',
   'a', 'b', 'c', 'd', 'e', 'f', 'g', 'h', 'i', 'j']

/-- Scenario A content: 2600 lowercase characters, no boundary characters. -/
def contentA : List Char := List.replicate 2600 'x'

/-- Scenario B content: a `'。'` at character offset 998 of a 1200-character
text with no other boundary characters. -/
def contentB : List Char := List.replicate 998 'a' ++ '。' :: List.replicate 201 'a'

/-- Fixture document holding `contentRep`, used to exercise the round-trip
law on a complete `process_document` run. -/
def docRep : Document :=
  { doc_id := "doc-r", chunk_size := 5, chunk_overlap := 2,
    content := some contentRep, chunks := [], updated_at := 0 }

/-- Fixture document for the ownership-check claim. -/
def docW : Document :=
  { doc_id := "doc-1", chunk_size := 2000, chunk_overlap := 200,
    content := some ['x'], chunks := [], updated_at := 3 }

/-- Chunk that belongs to `docW`. -/
def chunkGood : DocChunk :=
  { chunk_index := 0, content := ['x'], position := default, doc_id := "doc-1",
    target_chunk_size := 2000, actual_chunk_size := 1 }

/-- Chunk whose `doc_id` is foreign to `docW`. -/
def chunkBad : DocChunk :=
  { chunk_index := 0, content := ['x'], position := default, doc_id := "doc-2",
    target_chunk_size := 2000, actual_chunk_size := 1 }

/-- Fixture document whose content is the empty string. -/
def docE : Document :=
  { doc_id := "doc-e", chunk_size := 2000, chunk_overlap := 200,
    content := some [], chunks := [], updated_at := 0 }

/-- Fixture document whose content is missing (`None`). -/
def docN : Document :=
  { doc_id := "doc-n", chunk_size := 2000, chunk_overlap := 200,
    content := none, chunks := [], updated_at := 0 }

/-! ### Basic lemmas about the scan and slice helpers -/

theorem firstHitFrom_eq_some {f : Nat → Bool} :
    ∀ {fuel i0 i : Nat}, firstHitFrom f i0 fuel = some i →
      i0 ≤ i ∧ i < i0 + fuel ∧ f i = true ∧ ∀ j, i0 ≤ j → j < i → f j = false := by
  intro fuel
  induction fuel with
  | zero => intro i0 i h; simp [firstHitFrom] at h
  | succ fuel ih =>
    intro i0 i h
    simp only [firstHitFrom] at h
    by_cases hf : f i0
    · rw [if_pos hf] at h
      obtain rfl : i0 = i := by simpa using h
      exact ⟨Nat.le_refl _, by omega, hf, fun j h1 h2 => absurd h1 (by omega)⟩
    · rw [if_neg hf] at h
      obtain ⟨h1, h2, h3, h4⟩ := ih h
      refine ⟨by omega, by omega, h3, fun j hj1 hj2 => ?_⟩
      rcases Nat.eq_or_lt_of_le hj1 with rfl | hj1'
      · simpa using hf
      · exact h4 j hj1' hj2

theorem firstHitFrom_eq_none {f : Nat → Bool} :
    ∀ {fuel i0 : Nat}, firstHitFrom f i0 fuel = none →
      ∀ j, i0 ≤ j → j < i0 + fuel → f j = false := by
  intro fuel
  induction fuel with
  | zero => intro i0 _ j h1 h2; omega
  | succ fuel ih =>
    intro i0 h j h1 h2
    simp only [firstHitFrom] at h
    by_cases hf : f i0
    · rw [if_pos hf] at h; cases h
    · rw [if_neg hf] at h
      rcases Nat.eq_or_lt_of_le h1 with rfl | h1'
      · simpa using hf
      · exact ih h j h1' (by omega)

theorem firstHitFrom_none_of {f : Nat → Bool} :
    ∀ (fuel i0 : Nat), (∀ j, i0 ≤ j → j < i0 + fuel → f j = false) →
      firstHitFrom f i0 fuel = none := by
  intro fuel
  induction fuel with
  | zero => intro i0 _; rfl
  | succ fuel ih =>
    intro i0 h
    simp only [firstHitFrom]
    rw [if_neg (by simp [h i0 (Nat.le_refl _) (by omega)])]
    exact ih (i0 + 1) fun j h1 h2 => h j (by omega) (by omega)

theorem firstHitFrom_some_of {f : Nat → Bool} :
    ∀ (fuel i0 i : Nat), i0 ≤ i → i < i0 + fuel → f i = true →
      (∀ j, i0 ≤ j → j < i → f j = false) →
      firstHitFrom f i0 fuel = some i := by
  intro fuel
  induction fuel with
  | zero => intro i0 i h1 h2; omega
  | succ fuel ih =>
    intro i0 i h1 h2 h3 h4
    simp only [firstHitFrom]
    rcases Nat.eq_or_lt_of_le h1 with rfl | h1'
    · rw [if_pos h3]
    · rw [if_neg (by simp [h4 i0 (Nat.le_refl _) h1'])]
      exact ih (i0 + 1) i h1' (by omega) h3 fun j hj1 hj2 => h4 j (by omega) hj2

theorem pySliceNorm_ofNat (len k : Nat) : pySliceNorm len (k : Int) = min k len := by
  simp [pySliceNorm]

/-- Splicing a middle slice with the rest: `l[s:e] ++ l[e:] = l[s:]` whenever
`s ≤ e`. -/
theorem take_drop_chain (l : List Char) :
    ∀ (s e : Nat), s ≤ e → (l.take e).drop s ++ l.drop e = l.drop s := by
  induction l with
  | nil => intro s e _; simp
  | cons a t ih =>
    intro s e hse
    cases e with
    | zero =>
      obtain rfl : s = 0 := by omega
      simp
    | succ e =>
      cases s with
      | zero => simp [List.take_append_drop]
      | succ s => simpa using ih s e (by omega)

/-- Evaluation of `content_without_overlap` for a chunk whose stored text is
the slice `l[as:ae]` and whose overlaps satisfy the chunker's equations:
the result is the core slice `l[s:e]`. -/
theorem content_without_overlap_slice (l : List Char) (s e as ae ov_s ov_e : Nat)
    (h1 : as + ov_s = s) (h2 : e + ov_e = ae) (h3 : s ≤ e) (h4 : ae ≤ l.length) :
    pySlice ((l.take ae).drop as) (ov_s : Int)
      ((((l.take ae).drop as).length : Int) - (ov_e : Int))
      = (l.take e).drop s := by
  have hlen : ((l.take ae).drop as).length = ae - as := by
    simp [List.length_drop, List.length_take]
    omega
  have hend : (((l.take ae).drop as).length : Int) - (ov_e : Int)
      = ((ae - as - ov_e : Nat) : Int) := by
    rw [hlen]; omega
  rw [pySlice, hend, pySliceNorm_ofNat, pySliceNorm_ofNat, hlen]
  have h5 : min (ae - as - ov_e) (ae - as) = e - as := by omega
  have h6 : min ov_s (ae - as) = ov_s := by omega
  rw [h5, h6]
  rw [List.take_drop, List.drop_drop]
  have h7 : as + (e - as) = e := by omega
  have h8 : as + ov_s = s := h1
  rw [h7, List.take_take, h8]
  have h9 : min e ae = e := by omega
  rw [h9]

/-- Successful construction of a `DocChunkPosition`: when
`char_start ≤ char_end` the constructor returns a position whose overlap
fields are exactly the arguments. -/
theorem DocChunkPosition.mk?_eq_some (a b ls le os oe c1 c2 : Nat) (h : a ≤ b) :
    DocChunkPosition.mk? a b ls le os oe c1 c2 = some
      { char_start := a, char_end := b, line_start := ls, line_end := le,
        overlap_start := os, overlap_end := oe,
        content_start := if c1 = 0 then a + os else c1,
        content_end := if c2 = 0 then b - oe else c2 } := by
  rw [DocChunkPosition.mk?, if_neg (by omega)]

/-! ### The boundary search never regresses below a reachable cursor -/

/-- Behaviour of one end-of-chunk computation from a reachable loop state:
the end never regresses below `start`, stays within the document, hands the
invariant to the next state, and advances strictly whenever
`chunk_size ≥ 99` (the backward scan reaches at most 99 characters behind
the proposed cut `start + chunk_size`). -/
theorem chunkEnd_bounds (content : List Char) (cs start : Nat)
    (hstart : start < content.length) (hInv : ChunkInv content start) :
    start ≤ chunkEnd content cs start ∧
    chunkEnd content cs start ≤ content.length ∧
    (chunkEnd content cs start < content.length →
      ChunkInv content (chunkEnd content cs start)) ∧
    (99 ≤ cs → start < chunkEnd content cs start) := by
  unfold chunkEnd
  split
  case isFalse her =>
    have h1 : min (start + cs) content.length = content.length := by omega
    refine ⟨by omega, by omega, ?_, by omega⟩
    intro h
    rw [h1] at h
    exact absurd h (lt_irrefl _)
  case isTrue her =>
    have hp : min (start + cs) content.length = start + cs := by omega
    rw [hp] at her ⊢
    unfold find_split_boundary
    split
    case h_1 i hf =>
      obtain ⟨-, hi2, hi3, -⟩ := firstHitFrom_eq_some hf

      refine ⟨by omega, by omega, ?_, by omega⟩
      intro _
      refine Or.inr (Or.inl ⟨by omega, ?_⟩)
      have hidx : start + cs + i + 1 - 1 = start + cs + i := by omega
      rw [hidx]
      exact hi3
    case h_2 hf =>
      split
      case h_1 i hb =>
        obtain ⟨-, hi2, hi3, hi4⟩ := firstHitFrom_eq_some hb

        have hIle : start ≤ start + cs - i + 1 := by
          rcases hInv with rfl | ⟨hs1, hsB⟩ | hnoB
          · omega
          · by_cases hcase : cs + 1 < min 100 (start + cs)
            · have hpred : isBoundaryChar (content.getD (start + cs - (cs + 1)) 'a') = true := by
                have hidx : start + cs - (cs + 1) = start - 1 := by omega
                rw [hidx]; exact hsB
              have hile : i ≤ cs + 1 := by
                by_contra hgt
                push_neg at hgt
                have hfalse := hi4 (cs + 1) (by omega) (by omega)
                rw [hfalse] at hpred
                exact absurd hpred (by simp)
              omega
            · omega
          · by_contra hlt
            push_neg at hlt
            have hj := hnoB (start + cs - i) (by omega) (by omega) (by omega)
            rw [hj] at hi3
            exact absurd hi3 (by simp)
        refine ⟨hIle, by omega, ?_, by omega⟩
        intro _
        refine Or.inr (Or.inl ⟨by omega, ?_⟩)
        have hidx : start + cs - i + 1 - 1 = start + cs - i := by omega
        rw [hidx]
        exact hi3
      case h_2 hb =>
        refine ⟨by omega, by omega, ?_, by omega⟩
        intro _
        refine Or.inr (Or.inr ?_)
        intro j hj1 hj2 hj3
        have hfalse := firstHitFrom_eq_none hb (start + cs - j) (by omega) (by omega)

        have hidx : start + cs - (start + cs - j) = j := by omega
        rw [hidx] at hfalse
        exact hfalse

/-- Soundness of the chunking loop from any reachable state: whenever the
loop returns normally, the concatenated core slices of the produced chunks
are exactly the unprocessed suffix `content[start:]`. -/
theorem create_chunks_go_sound (cs co : Nat) (did : String) (content : List Char) :
    ∀ (fuel start idx : Nat) (chunks : List DocChunk),
      (start < content.length → ChunkInv content start) →
      start ≤ content.length →
      create_chunks_go cs co did content fuel start idx = some chunks →
      reconstruct_content chunks = content.drop start := by
  intro fuel
  induction fuel with
  | zero =>
    intro start idx chunks hInv hle h
    simp only [create_chunks_go] at h
    split at h
    · cases h
    · next hns =>
      have hstart : start = content.length := by omega
      subst hstart
      obtain rfl : chunks = [] := by simpa using h.symm
      simp [reconstruct_content]
  | succ fuel ih =>
    intro start idx chunks hInv hle h
    simp only [create_chunks_go] at h
    split at h
    case isFalse hns =>
      have hstart : start = content.length := by omega
      subst hstart
      obtain rfl : chunks = [] := by simpa using h.symm
      simp [reconstruct_content]
    case isTrue hs =>
      obtain ⟨hb1, hb2, hb3, -⟩ := chunkEnd_bounds content cs start hs (hInv hs)
      set e := chunkEnd content cs start with he
      set ov_s := (if 0 < idx then min co start else 0 : Nat) with hovs
      set ov_e := (if e < content.length then min co (content.length - e) else 0 : Nat) with hove
      set ae := (if e < content.length then min (e + ov_e) content.length else e : Nat) with hae
      have hov_le : ov_s ≤ start := by rw [hovs]; split <;> omega
      have heq_ae : e + ov_e = ae := by
        rw [hae, hove]
        split <;> omega
      have hae_le : ae ≤ content.length := by
        rw [hae]
        split <;> omega
      have hmk : start - ov_s ≤ ae := by omega
      rw [DocChunkPosition.mk?_eq_some _ _ _ _ _ _ _ _ hmk] at h
      rw [Option.some_bind] at h
      obtain ⟨rest, hrest, hchunks⟩ := Option.map_eq_some'.mp h
      subst hchunks
      have hrec := ih e (idx + 1) rest (fun hlt => hb3 hlt) hb2 hrest
      simp only [reconstruct_content, List.map_cons, List.flatten_cons] at *
      rw [hrec]
      have hcwo : DocChunk.content_without_overlap
          { chunk_index := idx, content := (content.take ae).drop (start - ov_s),
            position :=
              { char_start := start - ov_s, char_end := ae,
                line_start := get_line_number content (start - ov_s),
                line_end := get_line_number content ae,
                overlap_start := ov_s, overlap_end := ov_e,
                content_start := if start = 0 then start - ov_s + ov_s else start,
                content_end := if e = 0 then ae - ov_e else e },
            doc_id := did, target_chunk_size := cs,
            actual_chunk_size := ((content.take ae).drop (start - ov_s)).length }
          = (content.take e).drop start := by
        unfold DocChunk.content_without_overlap
        exact content_without_overlap_slice content start e (start - ov_s) ae ov_s ov_e
          (by omega) heq_ae hb1 hae_le
      rw [hcwo]
      exact take_drop_chain content start e hb1

/-- Termination of the chunking loop for `chunk_size ≥ 99`: from any
reachable state the loop finishes (with no exception) within
`content.length - start` further iterations, because every iteration
advances the cursor strictly. -/
theorem create_chunks_go_total (cs co : Nat) (did : String) (content : List Char)
    (hcs : 99 ≤ cs) :
    ∀ (fuel start idx : Nat),
      (start < content.length → ChunkInv content start) →
      content.length - start < fuel →
      (create_chunks_go cs co did content fuel start idx).isSome = true := by
  intro fuel
  induction fuel with
  | zero => intro start idx _ hf; omega
  | succ fuel ih =>
    intro start idx hInv hf
    simp only [create_chunks_go]
    split
    case isFalse hns => simp
    case isTrue hs =>
      obtain ⟨hb1, hb2, hb3, hb4⟩ := chunkEnd_bounds content cs start hs (hInv hs)
      have hstep := hb4 hcs
      set e := chunkEnd content cs start with he
      set ov_s := (if 0 < idx then min co start else 0 : Nat) with hovs
      set ov_e := (if e < content.length then min co (content.length - e) else 0 : Nat) with hove
      set ae := (if e < content.length then min (e + ov_e) content.length else e : Nat) with hae
      have hov_le : ov_s ≤ start := by rw [hovs]; split <;> omega
      have hae_ge : e ≤ ae := by rw [hae, hove]; split <;> omega
      have hmk : start - ov_s ≤ ae := by omega
      rw [DocChunkPosition.mk?_eq_some _ _ _ _ _ _ _ _ hmk, Option.some_bind,
        Option.isSome_map']
      exact ih e (idx + 1) (fun hlt => hb3 hlt) (by omega)

/-- Every chunk produced by the loop carries the `doc_id` the loop was given.
-/
theorem create_chunks_go_doc_id (cs co : Nat) (did : String) (content : List Char) :
    ∀ (fuel start idx : Nat) (chunks : List DocChunk),
      create_chunks_go cs co did content fuel start idx = some chunks →
      ∀ c ∈ chunks, c.doc_id = did := by
  intro fuel
  induction fuel with
  | zero =>
    intro start idx chunks h
    simp only [create_chunks_go] at h
    split at h
    · cases h
    · obtain rfl : chunks = [] := by simpa using h.symm
      simp
  | succ fuel ih =>
    intro start idx chunks h
    simp only [create_chunks_go] at h
    split at h
    case isFalse hns =>
      obtain rfl : chunks = [] := by simpa using h.symm
      simp
    case isTrue hs =>
      rcases hmk : DocChunkPosition.mk?
          (start - (if 0 < idx then min co start else 0))
          (if chunkEnd content cs start < content.length then
            min (chunkEnd content cs start +
              (if chunkEnd content cs start < content.length then
                min co (content.length - chunkEnd content cs start) else 0))
              content.length
           else chunkEnd content cs start)
          (get_line_number content (start - (if 0 < idx then min co start else 0)))
          (get_line_number content
            (if chunkEnd content cs start < content.length then
              min (chunkEnd content cs start +
                (if chunkEnd content cs start < content.length then
                  min co (content.length - chunkEnd content cs start) else 0))
                content.length
             else chunkEnd content cs start))
          (if 0 < idx then min co start else 0)
          (if chunkEnd content cs start < content.length then
            min co (content.length - chunkEnd content cs start) else 0)
          start (chunkEnd content cs start) with pos | pos
      · rw [hmk, Option.none_bind] at h
        cases h
      · rw [hmk, Option.some_bind] at h
        obtain ⟨rest, hrest, hchunks⟩ := Option.map_eq_some'.mp h
        subst hchunks
        intro c hc
        rcases List.mem_cons.mp hc with rfl | hmem
        · rfl
        · exact ih _ _ rest hrest c hmem

/-- Appending a list of chunks that all belong to the document succeeds and
appends them in order (the `updated_at` tick becomes `now` whenever at least
one chunk is appended). -/
theorem foldlM_add_chunk (now : Nat) :
    ∀ (l : List DocChunk) (d : Document), (∀ c ∈ l, c.doc_id = d.doc_id) →
      ∃ d2, l.foldlM (fun x c => add_chunk now x c) d = some d2 ∧
        d2.chunks = d.chunks ++ l := by
  intro l
  induction l with
  | nil => intro d _; exact ⟨d, rfl, by simp⟩
  | cons c l ih =>
    intro d hdid
    have hc : c.doc_id = d.doc_id := hdid c (by simp)
    have hstep : add_chunk now d c =
        some { d with chunks := d.chunks ++ [c], updated_at := now } := by
      rw [add_chunk, if_neg (by simp [hc])]
    obtain ⟨d2, hd2, hchunks⟩ := ih { d with chunks := d.chunks ++ [c], updated_at := now }
      (by intro x hx; simpa using hdid x (by simp [hx]))
    refine ⟨d2, ?_, ?_⟩
    · rw [List.foldlM_cons, hstep]
      simpa using hd2
    · rw [hchunks]
      simp

/-- Accumulation behaviour of the adjacency/overlap loop of the verifier:
starting from any intermediate report, the loop appends exactly one issue per
violated check, clears `coverage_complete` exactly when some pair has a gap,
clears `overlaps_correct` exactly when some pair has mismatching overlap
text, and never touches `content_matches`. -/
theorem verify_pair_foldl (chunks : List DocChunk) :
    ∀ (l : List Nat) (st : VerifyReport),
      (l.foldl (verify_pair_step chunks) st).issues.length =
          st.issues.length + l.countP (gapB chunks) + l.countP (ovlB chunks) ∧
      (l.foldl (verify_pair_step chunks) st).coverage_complete =
          (st.coverage_complete && l.all (fun i => !gapB chunks i)) ∧
      (l.foldl (verify_pair_step chunks) st).overlaps_correct =
          (st.overlaps_correct && l.all (fun i => !ovlB chunks i)) ∧
      (l.foldl (verify_pair_step chunks) st).content_matches = st.content_matches := by
  intro l
  induction l with
  | nil => intro st; simp
  | cons a l ih =>
    intro st
    simp only [List.foldl_cons, List.countP_cons, List.all_cons]
    obtain ⟨ih1, ih2, ih3, ih4⟩ := ih (verify_pair_step chunks st a)
    rw [ih1, ih2, ih3, ih4]
    cases hga : gapB chunks a <;> cases hov : ovlB chunks a <;>
      simp [verify_pair_step, hga, hov, Bool.and_assoc, Bool.and_comm, Bool.and_left_comm] <;>
      omega

/-! ### Step-by-step evaluation of the chunking loop -/

/-- One unfolding of the chunking loop at a live cursor, with the computed
quantities supplied as equations: the iteration emits one chunk and recurses
at `start = e`. -/
theorem create_chunks_go_step (cs co : Nat) (did : String) (content : List Char)
    (fuel start idx e ov_s ov_e ae : Nat)
    (hs : start < content.length)
    (he : chunkEnd content cs start = e)
    (hovs : (if 0 < idx then min co start else 0) = ov_s)
    (hove : (if e < content.length then min co (content.length - e) else 0) = ov_e)
    (hae : (if e < content.length then min (e + ov_e) content.length else e) = ae)
    (hle : start - ov_s ≤ ae) :
    create_chunks_go cs co did content (fuel + 1) start idx =
      (create_chunks_go cs co did content fuel e (idx + 1)).map fun rest =>
        { chunk_index := idx, content := (content.take ae).drop (start - ov_s),
          position :=
            { char_start := start - ov_s, char_end := ae,
              line_start := get_line_number content (start - ov_s),
              line_end := get_line_number content ae,
              overlap_start := ov_s, overlap_end := ov_e,
              content_start := if start = 0 then start - ov_s + ov_s else start,
              content_end := if e = 0 then ae - ov_e else e },
          doc_id := did, target_chunk_size := cs,
          actual_chunk_size := ((content.take ae).drop (start - ov_s)).length } :: rest := by
  simp only [create_chunks_go]
  rw [if_pos hs, he, hovs, hove, hae,
    DocChunkPosition.mk?_eq_some _ _ _ _ _ _ _ _ hle, Option.some_bind]

/-- The chunking loop returns immediately once the cursor has reached the end
of the content. -/
theorem create_chunks_go_done (cs co : Nat) (did : String) (content : List Char)
    (fuel start idx : Nat) (hs : ¬ start < content.length) :
    create_chunks_go cs co did content fuel start idx = some [] := by
  cases fuel <;> simp only [create_chunks_go] <;> rw [if_neg hs]

/-! ### Evaluation of the boundary search on the scenario contents -/

theorem isB_contentA (j : Nat) : isBoundaryChar (contentA.getD j 'a') = false := by
  rw [contentA, List.getD_eq_getElem?_getD, List.getElem?_replicate]
  split <;> decide

theorem fsb_contentA (p : Nat) : find_split_boundary contentA p = p := by
  unfold find_split_boundary
  split
  case h_1 i hf =>
    obtain ⟨-, -, hi3, -⟩ := firstHitFrom_eq_some hf
    rw [isB_contentA] at hi3
    cases hi3
  case h_2 hf =>
    split
    case h_1 i hb =>
      obtain ⟨-, -, hi3, -⟩ := firstHitFrom_eq_some hb
      rw [isB_contentA] at hi3
      cases hi3
    case h_2 hb => rfl

theorem chunkEnd_contentA (s : Nat) : chunkEnd contentA 1000 s = min (s + 1000) 2600 := by
  have hlen : contentA.length = 2600 := by simp [contentA]
  unfold chunkEnd
  rw [hlen]
  split
  · exact fsb_contentA _
  · rfl

theorem getD_contentB (j : Nat) : contentB.getD j 'a' = if j = 998 then '。' else 'a' := by
  rw [contentB, List.getD_eq_getElem?_getD]
  rcases lt_trichotomy j 998 with h | rfl | h
  · rw [List.getElem?_append_left (by simpa using h), List.getElem?_replicate,
      if_pos h, if_neg (by omega)]
    rfl
  · rw [List.getElem?_append_right (by simp)]
    simp
  · rw [List.getElem?_append_right (by simpa using Nat.le_of_lt h)]
    have hj : j - (List.replicate 998 'a').length = (j - 999) + 1 := by
      simp
      omega
    rw [hj, List.getElem?_cons_succ, List.getElem?_replicate,
      if_neg (show ¬ j = 998 by omega)]
    split <;> rfl

theorem isB_contentB (j : Nat) (hj : j ≠ 998) :
    isBoundaryChar (contentB.getD j 'a') = false := by
  rw [getD_contentB, if_neg hj]
  decide

theorem fsb_contentB : find_split_boundary contentB 1000 = 999 := by
  have hlen : contentB.length = 1200 := by simp [contentB]
  unfold find_split_boundary
  split
  case h_1 i hf =>
    obtain ⟨-, -, hi3, -⟩ := firstHitFrom_eq_some hf
    rw [isB_contentB _ (by omega)] at hi3
    cases hi3
  case h_2 hf =>
    split
    case h_1 i hb =>
      obtain ⟨-, hi2, hi3, -⟩ := firstHitFrom_eq_some hb
      have hieq : i = 2 := by
        by_cases h98 : 1000 - i = 998
        · omega
        · rw [isB_contentB _ h98] at hi3
          cases hi3
      subst hieq
      norm_num
    case h_2 hb =>
      have hfalse := firstHitFrom_eq_none hb 2 (by omega) (by omega)
      rw [getD_contentB] at hfalse
      rw [if_pos (by norm_num)] at hfalse
      exact absurd hfalse (by decide)

theorem chunkEnd_contentB : chunkEnd contentB 1000 0 = 999 := by
  have hlen : contentB.length = 1200 := by simp [contentB]
  unfold chunkEnd
  rw [hlen]
  rw [if_pos (by norm_num)]
  have h1 : min (0 + 1000) 1200 = 1000 := by norm_num
  rw [h1, fsb_contentB]

/-- Field-level description of the stage-1 (coverage-bounds) report. -/
theorem verify_bounds_report_spec (chunks : List DocChunk) (original : List Char) :
    (verify_bounds_report chunks original).issues.length =
        (if chunks.isEmpty then 0 else
          (if (chunks.headD default).position.content_start ≠ 0 then 1 else 0) +
          (if (chunks.getLastD default).position.content_end ≠ original.length
            then 1 else 0)) ∧
    (verify_bounds_report chunks original).coverage_complete =
        (if chunks.isEmpty then true else
          decide ((chunks.headD default).position.content_start = 0) &&
          decide ((chunks.getLastD default).position.content_end = original.length)) ∧
    (verify_bounds_report chunks original).overlaps_correct = true ∧
    (verify_bounds_report chunks original).content_matches = true := by
  unfold verify_bounds_report
  split_ifs with h0 h1 h2 h2 <;> simp_all

/-- Claim C9 — Verifier totality and accumulation: `verify_chunk_integrity`
is a total function (the model is a plain function, as is the Python code,
which performs no raising operation), and on every input it returns the full
report: `issues` holds exactly one message per detected violation — the two
bounds checks, one gap check and one overlap check per adjacent pair, and the
reconstruction check — so the scan continues past each failure, and the
three booleans summarise exactly the corresponding groups of checks. -/
theorem verify_chunk_integrity_total (chunks : List DocChunk) (original : List Char) :
    (verify_chunk_integrity chunks original).issues.length =
        (if chunks.isEmpty then 0 else
          (if (chunks.headD default).position.content_start ≠ 0 then 1 else 0) +
          (if (chunks.getLastD default).position.content_end ≠ original.length
            then 1 else 0)) +
        (List.range (chunks.length - 1)).countP (gapB chunks) +
        (List.range (chunks.length - 1)).countP (ovlB chunks) +
        (if reconstruct_content chunks ≠ original then 1 else 0) ∧
    (verify_chunk_integrity chunks original).content_matches =
        decide (reconstruct_content chunks = original) ∧
    (verify_chunk_integrity chunks original).overlaps_correct =
        (List.range (chunks.length - 1)).all (fun i => !ovlB chunks i) ∧
    (verify_chunk_integrity chunks original).coverage_complete =
        ((if chunks.isEmpty then true else
            decide ((chunks.headD default).position.content_start = 0) &&
            decide ((chunks.getLastD default).position.content_end = original.length)) &&
          (List.range (chunks.length - 1)).all (fun i => !gapB chunks i)) := by
  obtain ⟨hb1, hb2, hb3, hb4⟩ := verify_bounds_report_spec chunks original
  obtain ⟨hf1, hf2, hf3, hf4⟩ := verify_pair_foldl chunks
    (List.range (chunks.length - 1)) (verify_bounds_report chunks original)
  unfold verify_chunk_integrity
  by_cases hrc : reconstruct_content chunks ≠ original
  · rw [if_pos hrc]
    refine ⟨?_, ?_, ?_, ?_⟩
    · dsimp only
      rw [List.length_append, hf1, hb1, if_pos hrc]
      simp only [List.length_cons, List.length_nil]
    · dsimp only
      simp [hrc]
    · dsimp only
      rw [hf3, hb3, Bool.true_and]
    · dsimp only
      rw [hf2, hb2]
  · rw [if_neg hrc]
    refine ⟨?_, ?_, ?_, ?_⟩
    · rw [hf1, hb1, if_neg hrc]
      omega
    · rw [hf4, hb4]
      simp only [ne_eq, not_not] at hrc
      simp [hrc]
    · rw [hf3, hb3, Bool.true_and]
    · rw [hf2, hb2]

/-- Claim C10 — Implicit edge case of the verifier on an empty chunk list:
the bounds and adjacency checks are skipped, so `coverage_complete` and
`overlaps_correct` are `true` whatever `original` is, and `content_matches`
holds exactly when `original` is empty, because reconstructing from no
chunks yields the empty string. -/
theorem verify_chunk_integrity_empty (original : List Char) :
    (verify_chunk_integrity [] original).coverage_complete = true ∧
    (verify_chunk_integrity [] original).overlaps_correct = true ∧
    ((verify_chunk_integrity [] original).content_matches = true ↔ original = []) ∧
    reconstruct_content ([] : List DocChunk) = [] := by
  by_cases h : original = []
  · subst h
    exact ⟨rfl, rfl, ⟨fun _ => rfl, fun _ => rfl⟩, rfl⟩
  · refine ⟨?_, ?_, ?_, rfl⟩ <;>
      simp [verify_chunk_integrity, verify_bounds_report, verify_pair_step,
        reconstruct_content, h, Ne.symm h]

/-- Claim C6 (amended) — Construction guard of the two position dataclasses:
construction fails exactly when `char_start > char_end`; the relation between
`line_start` and `line_end` is not checked (see the counterexample
`position_line_guard_cex`). -/
theorem position_guard_amended (a b ls le os oe c1 c2 : Nat) :
    ((DocChunkPosition.mk? a b ls le os oe c1 c2).isSome = true ↔ a ≤ b) ∧
    ((DocumentChunkPosition.mk? a b ls le os oe c1 c2).isSome = true ↔ a ≤ b) := by
  constructor
  · rw [DocChunkPosition.mk?]
    split
    · next h => simp; omega
    · next h => simp; omega
  · rw [DocumentChunkPosition.mk?]
    split
    · next h => simp; omega
    · next h => simp; omega

/-- Claim C6 (counterexample) — A `Position` value with
`line_start > line_end` CAN be constructed (in both duplicated dataclasses):
`__post_init__` only validates `char_start ≤ char_end`, so the claim that
construction with `line_start > line_end` fails immediately is false. -/
theorem position_line_guard_cex :
    (DocChunkPosition.mk? 0 0 2 1 0 0 0 0).isSome = true ∧
    ((DocChunkPosition.mk? 0 0 2 1 0 0 0 0).getD default).line_start = 2 ∧
    ((DocChunkPosition.mk? 0 0 2 1 0 0 0 0).getD default).line_end = 1 ∧
    (DocumentChunkPosition.mk? 0 0 2 1 0 0 0 0).isSome = true ∧
    ((DocumentChunkPosition.mk? 0 0 2 1 0 0 0 0).getD default).line_start = 2 ∧
    ((DocumentChunkPosition.mk? 0 0 2 1 0 0 0 0).getD default).line_end = 1 := by
  decide

/-- Claim C7 — Ownership check with atomicity: appending a chunk with a
foreign `doc_id` raises (modelled by `none`; the pure model returns the
document unchanged, matching Python's raising before any mutation, so neither
`chunks` nor `updated_at` changes), while a matching `doc_id` appends the
chunk and moves `updated_at` to the current tick `now`. -/
theorem add_chunk_ownership (now : Nat) (doc : Document) (c : DocChunk) :
    (c.doc_id ≠ doc.doc_id → add_chunk now doc c = none) ∧
    (c.doc_id = doc.doc_id →
      add_chunk now doc c =
        some { doc with chunks := doc.chunks ++ [c], updated_at := now }) := by
  constructor
  · intro h
    rw [add_chunk, if_pos h]
  · intro h
    rw [add_chunk, if_neg (fun hne => hne h)]

/-- Witness for `add_chunk_ownership` at a concrete document and chunks. -/
theorem add_chunk_ownership_witness :
    add_chunk 5 docW chunkBad = none ∧
    add_chunk 5 docW chunkGood =
      some { docW with chunks := docW.chunks ++ [chunkGood], updated_at := 5 } :=
  ⟨(add_chunk_ownership 5 docW chunkBad).1 (by decide),
   (add_chunk_ownership 5 docW chunkGood).2 (by decide)⟩

/-- Claim C8 — Empty-content failure with atomicity: `process_document` on a
document with missing (`None`) or empty content raises the empty-content
error (modelled by `none`) before computing chunks, so no chunk is ever
appended and the document is unchanged. -/
theorem process_document_empty_content (cs co now fuel : Nat) (doc : Document)
    (h : doc.content = none ∨ doc.content = some []) :
    process_document cs co now fuel doc = none := by
  rcases h with h | h <;> simp [process_document, h]

/-- Witness for `process_document_empty_content` on concrete documents with
empty and missing content. -/
theorem process_document_empty_content_witness :
    process_document 3 1 9 50 docE = none ∧ process_document 3 1 9 50 docN = none :=
  ⟨process_document_empty_content 3 1 9 50 docE (Or.inr rfl),
   process_document_empty_content 3 1 9 50 docN (Or.inl rfl)⟩

/-- From the reachable state `start = 6` on `contentStall`, the chunking loop
never returns, whatever fuel it is given: the computed end equals the cursor
(`chunkEnd contentStall 5 6 = 6`), so the state repeats forever. -/
theorem contentStall_loop_stuck :
    ∀ (fuel idx : Nat), create_chunks_go 5 1 "d" contentStall fuel 6 idx = none := by
  intro fuel
  induction fuel with
  | zero =>
    intro idx
    simp only [create_chunks_go]
    rw [if_pos (by decide)]
  | succ fuel ih =>
    intro idx
    rw [create_chunks_go_step 5 1 "d" contentStall fuel 6 idx 6
      (if 0 < idx then 1 else 0) 1 7 (by decide) (by decide)
      (by split <;> decide) (by decide) (by decide) (by split <;> omega)]
    rw [ih (idx + 1)]
    rfl

/-- Claim C3 (counterexample) — The chunking loop does not always terminate,
and the boundary search can regress exactly to the cursor: on the
20-character `contentStall` with `chunk_size = 5`, `chunk_overlap = 1`
(both positive), the computed end at the reachable cursor `6` is again `6`,
and the loop returns no result even with far more fuel than the
`len(content)` iterations that a strictly advancing cursor would need. -/
theorem chunking_nontermination_cex :
    chunkEnd contentStall 5 6 = 6 ∧
    create_chunks_go 5 1 "d" contentStall 21 0 0 = none ∧
    create_chunks_go 5 1 "d" contentStall 1000 0 0 = none := by
  refine ⟨by decide, ?_, ?_⟩
  · show create_chunks_go 5 1 "d" contentStall (20 + 1) 0 0 = none
    rw [create_chunks_go_step 5 1 "d" contentStall 20 0 0 6 0 1 7 (by decide)
      (by decide) (by decide) (by decide) (by decide) (by omega)]
    rw [contentStall_loop_stuck 20 (0 + 1)]
    rfl
  · show create_chunks_go 5 1 "d" contentStall (999 + 1) 0 0 = none
    rw [create_chunks_go_step 5 1 "d" contentStall 999 0 0 6 0 1 7 (by decide)
      (by decide) (by decide) (by decide) (by decide) (by omega)]
    rw [contentStall_loop_stuck 999 (0 + 1)]
    rfl

/-- Claim C3 (amended) — Strict advance and termination hold once
`chunk_size ≥ 99`: from every reachable loop state the computed end strictly
exceeds the cursor (the backward boundary scan reaches at most 99 characters
behind the proposed cut `start + chunk_size`), and the loop finishes
normally within `len(content) + 1` iterations.  For smaller `chunk_size` the
loop can hang forever, as `chunking_nontermination_cex` shows. -/
theorem chunking_termination_amended (content : List Char) (cs co : Nat)
    (did : String) (hcs : 99 ≤ cs) :
    (∀ start, start < content.length → ChunkInv content start →
      start < chunkEnd content cs start) ∧
    (create_chunks_go cs co did content (content.length + 1) 0 0).isSome = true := by
  constructor
  · intro start hs hInv
    exact (chunkEnd_bounds content cs start hs hInv).2.2.2 hcs
  · exact create_chunks_go_total cs co did content hcs (content.length + 1) 0 0
      (fun _ => Or.inl rfl) (by omega)

/-- Witness for `chunking_termination_amended` on a concrete 150-character
content with `chunk_size = 100`. -/
theorem chunking_termination_amended_witness :
    (create_chunks_go 100 10 "w" (List.replicate 150 'x') 151 0 0).isSome = true :=
  (chunking_termination_amended (List.replicate 150 'x') 100 10 "w" (by decide)).2

/-- Claim C2 — Overlap asymmetry of the produced chunks (the claim of
overlap symmetry is false on the code): running the chunker on the
20-character `contentRep` with `chunk_size = 5`, `chunk_overlap = 2`
terminates normally, the first chunk has `overlap_end = 2 > 0`, yet its
`overlap_with_next` is the text just after the cut (`"fg"`) while the second
chunk's `overlap_with_previous` is the text just before the cut (`"de"`).
The repository's own `verify_chunk_integrity`, which asserts the equality
the claim states, reports this very sequence as having incorrect overlaps
(`overlaps_correct = false`), so the chunker contradicts its own
verification tool. -/
theorem overlap_symmetry_bug :
    (create_chunks_go 5 2 "d" contentRep 21 0 0).isSome = true ∧
    (let l := (create_chunks_go 5 2 "d" contentRep 21 0 0).getD []
     0 < (l.getD 0 default).position.overlap_end ∧
     (l.getD 0 default).overlap_with_next = ['f', 'g'] ∧
     (l.getD 1 default).overlap_with_previous = ['d', 'e'] ∧
     (l.getD 0 default).overlap_with_next ≠ (l.getD 1 default).overlap_with_previous ∧
     (verify_chunk_integrity l contentRep).overlaps_correct = false) := by
  decide

/-- Claim C1 — Round-trip law: for every non-empty document content and
positive `chunk_size`/`chunk_overlap`, whenever `process_document` returns
normally (some fuel suffices for the loop, covering every terminating run),
concatenating `content_without_overlap` over the produced chunks in index
order — that is, `reconstruct_content` — yields exactly the original
content.  The document is taken with no pre-existing chunks so that the
document's chunk list afterwards is exactly the produced sequence. -/
theorem process_document_roundtrip (cs co now fuel : Nat) (doc : Document)
    (content : List Char) (doc2 : Document)
    (hcontent : doc.content = some content) (hne : content ≠ [])
    (_hcs : 1 ≤ cs) (_hco : 1 ≤ co) (hchunks : doc.chunks = [])
    (h : process_document cs co now fuel doc = some doc2) :
    reconstruct_content doc2.chunks = content := by
  rw [process_document] at h
  rw [hcontent] at h
  dsimp only at h
  rw [if_neg (by simp [hne])] at h
  rcases hcc : create_chunks_go cs co doc.doc_id content fuel 0 0 with _ | chunks
  · rw [hcc] at h
    cases h
  · rw [hcc] at h
    dsimp only at h
    have hdid := create_chunks_go_doc_id cs co doc.doc_id content fuel 0 0 chunks hcc
    obtain ⟨d2, hd2, hchunks2⟩ := foldlM_add_chunk now chunks doc hdid
    rw [hd2] at h
    obtain rfl : d2 = doc2 := by simpa using h
    rw [hchunks2, hchunks, List.nil_append]
    have hsound := create_chunks_go_sound cs co doc.doc_id content fuel 0 0 chunks
      (fun _ => Or.inl rfl) (Nat.zero_le _) hcc
    simpa using hsound

/-- Witness for `process_document_roundtrip`: a complete terminating run on
the 20-character `contentRep` with `chunk_size = 5`, `chunk_overlap = 2`
reconstructs the original content exactly. -/
theorem process_document_roundtrip_witness :
    reconstruct_content ((process_document 5 2 7 21 docRep).getD default).chunks
      = contentRep := by
  cases h : process_document 5 2 7 21 docRep with
  | none => exact absurd h (by decide)
  | some d2 =>
    show reconstruct_content d2.chunks = contentRep
    exact process_document_roundtrip 5 2 7 21 docRep contentRep d2 rfl
      (by decide) (by decide) (by decide) rfl h

/-- Claim C4 — Scenario A: chunking the 2600-character boundary-free
`contentA` with `chunk_size = 1000`, `chunk_overlap = 100` terminates and
produces exactly 3 chunks, whose core spans are `[0,1000)`, `[1000,2000)`
and `[2000,2600)`; the first chunk has `overlap_start = 0`, the last has
`overlap_end = 0`, and reconstruction returns the original content. -/
theorem scenarioA_chunking :
    ∃ l, create_chunks_go 1000 100 "d" contentA 2601 0 0 = some l ∧
      l.length = 3 ∧
      (l.getD 0 default).position.content_start = 0 ∧
      (l.getD 2 default).position.content_end = 2600 ∧
      (l.getD 0 default).position.overlap_start = 0 ∧
      (l.getD 2 default).position.overlap_end = 0 ∧
      reconstruct_content l = contentA := by
  have hlen : contentA.length = 2600 := by simp [contentA]
  have h3 : create_chunks_go 1000 100 "d" contentA 2598 2600 (0 + 1 + 1 + 1) = some [] :=
    create_chunks_go_done 1000 100 "d" contentA 2598 2600 (0 + 1 + 1 + 1)
      (by rw [hlen]; omega)
  have h2 : create_chunks_go 1000 100 "d" contentA 2599 2000 (0 + 1 + 1) = some
      [{ chunk_index := 0 + 1 + 1, content := (contentA.take 2600).drop (2000 - 100),
         position :=
           { char_start := 2000 - 100, char_end := 2600,
             line_start := get_line_number contentA (2000 - 100),
             line_end := get_line_number contentA 2600,
             overlap_start := 100, overlap_end := 0,
             content_start := 2000, content_end := 2600 },
         doc_id := "d", target_chunk_size := 1000,
         actual_chunk_size := ((contentA.take 2600).drop (2000 - 100)).length }] := by
    show create_chunks_go 1000 100 "d" contentA (2598 + 1) 2000 (0 + 1 + 1) = _
    rw [create_chunks_go_step 1000 100 "d" contentA 2598 2000 (0 + 1 + 1) 2600 100 0 2600
      (by rw [hlen]; omega) (by rw [chunkEnd_contentA]; omega)
      (by norm_num) (by rw [hlen]; norm_num) (by rw [hlen]; norm_num) (by omega)]
    rw [h3]
    rfl
  have h1 : create_chunks_go 1000 100 "d" contentA 2600 1000 (0 + 1) = some
      [{ chunk_index := 0 + 1, content := (contentA.take 2100).drop (1000 - 100),
         position :=
           { char_start := 1000 - 100, char_end := 2100,
             line_start := get_line_number contentA (1000 - 100),
             line_end := get_line_number contentA 2100,
             overlap_start := 100, overlap_end := 100,
             content_start := 1000, content_end := 2000 },
         doc_id := "d", target_chunk_size := 1000,
         actual_chunk_size := ((contentA.take 2100).drop (1000 - 100)).length },
       { chunk_index := 0 + 1 + 1, content := (contentA.take 2600).drop (2000 - 100),
         position :=
           { char_start := 2000 - 100, char_end := 2600,
             line_start := get_line_number contentA (2000 - 100),
             line_end := get_line_number contentA 2600,
             overlap_start := 100, overlap_end := 0,
             content_start := 2000, content_end := 2600 },
         doc_id := "d", target_chunk_size := 1000,
         actual_chunk_size := ((contentA.take 2600).drop (2000 - 100)).length }] := by
    show create_chunks_go 1000 100 "d" contentA (2599 + 1) 1000 (0 + 1) = _
    rw [create_chunks_go_step 1000 100 "d" contentA 2599 1000 (0 + 1) 2000 100 100 2100
      (by rw [hlen]; omega) (by rw [chunkEnd_contentA]; omega)
      (by norm_num) (by rw [hlen]; norm_num) (by rw [hlen]; norm_num) (by omega)]
    rw [h2]
    rfl
  have h0 : create_chunks_go 1000 100 "d" contentA 2601 0 0 = some
      [{ chunk_index := 0, content := (contentA.take 1100).drop (0 - 0),
         position :=
           { char_start := 0 - 0, char_end := 1100,
             line_start := get_line_number contentA (0 - 0),
             line_end := get_line_number contentA 1100,
             overlap_start := 0, overlap_end := 100,
             content_start := 0 - 0 + 0, content_end := 1000 },
         doc_id := "d", target_chunk_size := 1000,
         actual_chunk_size := ((contentA.take 1100).drop (0 - 0)).length },
       { chunk_index := 0 + 1, content := (contentA.take 2100).drop (1000 - 100),
         position :=
           { char_start := 1000 - 100, char_end := 2100,
             line_start := get_line_number contentA (1000 - 100),
             line_end := get_line_number contentA 2100,
             overlap_start := 100, overlap_end := 100,
             content_start := 1000, content_end := 2000 },
         doc_id := "d", target_chunk_size := 1000,
         actual_chunk_size := ((contentA.take 2100).drop (1000 - 100)).length },
       { chunk_index := 0 + 1 + 1, content := (contentA.take 2600).drop (2000 - 100),
         position :=
           { char_start := 2000 - 100, char_end := 2600,
             line_start := get_line_number contentA (2000 - 100),
             line_end := get_line_number contentA 2600,
             overlap_start := 100, overlap_end := 0,
             content_start := 2000, content_end := 2600 },
         doc_id := "d", target_chunk_size := 1000,
         actual_chunk_size := ((contentA.take 2600).drop (2000 - 100)).length }] := by
    show create_chunks_go 1000 100 "d" contentA (2600 + 1) 0 0 = _
    rw [create_chunks_go_step 1000 100 "d" contentA 2600 0 0 1000 0 100 1100
      (by rw [hlen]; omega) (by rw [chunkEnd_contentA]; omega)
      (by norm_num) (by rw [hlen]; norm_num) (by rw [hlen]; norm_num) (by omega)]
    rw [h1]
    rfl
  refine ⟨_, h0, rfl, rfl, rfl, rfl, rfl, ?_⟩
  simp only [reconstruct_content, List.map_cons, List.map_nil, List.flatten_cons,
    List.flatten_nil, List.append_nil]
  rw [show DocChunk.content_without_overlap
        { chunk_index := 0, content := (contentA.take 1100).drop (0 - 0),
          position :=
            { char_start := 0 - 0, char_end := 1100,
              line_start := get_line_number contentA (0 - 0),
              line_end := get_line_number contentA 1100,
              overlap_start := 0, overlap_end := 100,
              content_start := 0 - 0 + 0, content_end := 1000 },
          doc_id := "d", target_chunk_size := 1000,
          actual_chunk_size := ((contentA.take 1100).drop (0 - 0)).length }
      = (contentA.take 1000).drop 0 from
    content_without_overlap_slice contentA 0 1000 (0 - 0) 1100 0 100 (by omega)
      (by omega) (by omega) (by rw [hlen]; omega)]
  rw [show DocChunk.content_without_overlap
        { chunk_index := 0 + 1, content := (contentA.take 2100).drop (1000 - 100),
          position :=
            { char_start := 1000 - 100, char_end := 2100,
              line_start := get_line_number contentA (1000 - 100),
              line_end := get_line_number contentA 2100,
              overlap_start := 100, overlap_end := 100,
              content_start := 1000, content_end := 2000 },
          doc_id := "d", target_chunk_size := 1000,
          actual_chunk_size := ((contentA.take 2100).drop (1000 - 100)).length }
      = (contentA.take 2000).drop 1000 from
    content_without_overlap_slice contentA 1000 2000 (1000 - 100) 2100 100 100 (by omega)
      (by omega) (by omega) (by rw [hlen]; omega)]
  rw [show DocChunk.content_without_overlap
        { chunk_index := 0 + 1 + 1, content := (contentA.take 2600).drop (2000 - 100),
          position :=
            { char_start := 2000 - 100, char_end := 2600,
              line_start := get_line_number contentA (2000 - 100),
              line_end := get_line_number contentA 2600,
              overlap_start := 100, overlap_end := 0,
              content_start := 2000, content_end := 2600 },
          doc_id := "d", target_chunk_size := 1000,
          actual_chunk_size := ((contentA.take 2600).drop (2000 - 100)).length }
      = (contentA.take 2600).drop 2000 from
    content_without_overlap_slice contentA 2000 2600 (2000 - 100) 2600 100 0 (by omega)
      (by omega) (by omega) (by rw [hlen])]
  rw [show contentA.take 2600 = contentA from by rw [← hlen, List.take_length]]
  rw [take_drop_chain contentA 1000 2000 (by omega),
    take_drop_chain contentA 0 1000 (by omega), List.drop_zero]

/-- Equation for the boundary search when the forward scan hits. -/
theorem find_split_boundary_of_fwd_some (content : List Char) (p i : Nat)
    (hf : firstHitFrom (fun i => isBoundaryChar (content.getD (p + i) 'a')) 0
      (min 100 (content.length - p)) = some i) :
    find_split_boundary content p = p + i + 1 := by
  unfold find_split_boundary
  rw [hf]

/-- Equation for the boundary search when only the backward scan hits. -/
theorem find_split_boundary_of_bwd_some (content : List Char) (p i : Nat)
    (hf : firstHitFrom (fun i => isBoundaryChar (content.getD (p + i) 'a')) 0
      (min 100 (content.length - p)) = none)
    (hb : firstHitFrom (fun i => isBoundaryChar (content.getD (p - i) 'a')) 0
      (min 100 p) = some i) :
    find_split_boundary content p = p - i + 1 := by
  unfold find_split_boundary
  rw [hf, hb]

/-- Equation for the boundary search when neither scan hits (hard cut). -/
theorem find_split_boundary_of_none_none (content : List Char) (p : Nat)
    (hf : firstHitFrom (fun i => isBoundaryChar (content.getD (p + i) 'a')) 0
      (min 100 (content.length - p)) = none)
    (hb : firstHitFrom (fun i => isBoundaryChar (content.getD (p - i) 'a')) 0
      (min 100 p) = none) :
    find_split_boundary content p = p := by
  unfold find_split_boundary
  rw [hf, hb]

/-- Claim C5 — Split-boundary search: for every content and cut position,
the search scans forward up to `min 100 (len - position)` characters and
returns the index just after the first boundary character found; if the
forward window has none, it scans backward up to `min 100 position`
characters (starting at `position` itself) and returns the index just after
the first boundary character found; if both windows have none, it returns
the position unchanged.  In particular, on `contentB` (a `。` at offset 998,
no other boundary character) with `chunk_size = 1000`, the first chunk's
authoritative core end is 999 rather than the raw cut 1000. -/
theorem find_split_boundary_spec (content : List Char) (p : Nat) :
    ((∀ j, j < min 100 (content.length - p) →
        isBoundaryChar (content.getD (p + j) 'a') = false) →
      (∀ j, j < min 100 p → isBoundaryChar (content.getD (p - j) 'a') = false) →
      find_split_boundary content p = p) ∧
    (∀ i, i < min 100 (content.length - p) →
      isBoundaryChar (content.getD (p + i) 'a') = true →
      (∀ j, j < i → isBoundaryChar (content.getD (p + j) 'a') = false) →
      find_split_boundary content p = p + i + 1) ∧
    (∀ i, (∀ j, j < min 100 (content.length - p) →
        isBoundaryChar (content.getD (p + j) 'a') = false) →
      i < min 100 p →
      isBoundaryChar (content.getD (p - i) 'a') = true →
      (∀ j, j < i → isBoundaryChar (content.getD (p - j) 'a') = false) →
      find_split_boundary content p = p - i + 1) ∧
    (∀ l, create_chunks_go 1000 100 "d" contentB 1201 0 0 = some l →
      (l.headD default).position.content_end = 999) := by
  refine ⟨?_, ?_, ?_, ?_⟩
  · intro hf hb
    exact find_split_boundary_of_none_none content p
      (firstHitFrom_none_of _ 0 fun j h1 h2 => hf j (by omega))
      (firstHitFrom_none_of _ 0 fun j h1 h2 => hb j (by omega))
  · intro i hi hit hfirst
    exact find_split_boundary_of_fwd_some content p i
      (firstHitFrom_some_of _ 0 i (by omega) (by omega) hit
        (fun j h1 h2 => hfirst j h2))
  · intro i hf hi hit hfirst
    exact find_split_boundary_of_bwd_some content p i
      (firstHitFrom_none_of _ 0 fun j h1 h2 => hf j (by omega))
      (firstHitFrom_some_of _ 0 i (by omega) (by omega) hit
        (fun j h1 h2 => hfirst j h2))
  · intro l h
    have hlenB : contentB.length = 1200 := by simp [contentB]
    rw [show (1201 : Nat) = 1200 + 1 from rfl] at h
    rw [create_chunks_go_step 1000 100 "d" contentB 1200 0 0 999 0 100 1099
      (by rw [hlenB]; omega) chunkEnd_contentB (by norm_num)
      (by rw [hlenB]; norm_num) (by rw [hlenB]; norm_num) (by omega)] at h
    obtain ⟨rest, -, hl⟩ := Option.map_eq_some'.mp h
    rw [← hl]
    rfl

/-- Witness for `find_split_boundary_spec`: the Scenario B search itself,
obtained from the backward-hit case of the characterisation at `i = 2`. -/
theorem find_split_boundary_spec_witness : find_split_boundary contentB 1000 = 999 := by
  have h := (find_split_boundary_spec contentB 1000).2.2.1 2
    (fun j hj => isB_contentB (1000 + j) (by omega))
    (by omega)
    (by rw [getD_contentB, if_pos (by norm_num)]; decide)
    (fun j hj => isB_contentB (1000 - j) (by omega))
  norm_num at h
  exact h
